import Mathlib

/-!
Verification development for the analyzer components of the backtrader fork:
`analyzer_store/trade_analyzer.py`, `analyzer_store/performance_analyzer.py`
and `strategy_store/strategy.py`.  Python floats are embedded as `Rat`
(with an explicit four-constructor type `PFloat` where IEEE special values
NaN and infinity are observable), python lists and pandas tables as Lean
lists, and python exceptions as `Except String`.
-/

deriving instance DecidableEq for Except

/-- Rounding of a rational to the nearest integer, ties to even, matching
the behaviour of python round() on exactly representable inputs. -/
def pyRound (q : Rat) : Int :=
  let n : Int := ⌊q⌋
  let frac : Rat := q - (n : Rat)
  if frac < 1/2 then n
  else if 1/2 < frac then n + 1
  else if n % 2 = 0 then n else n + 1

/-- Embedding of python round(x, 4): round to four decimal places. -/
def round4 (q : Rat) : Rat := (pyRound (q * 10000) : Rat) / 10000

/-- Modelled from the spec: the price window lookup capability of the data
feed line buffers (backtrader linebuffer code of this repository, not under
src/).  line.get(ago=0, size=n) returns the most recent n values of the
series including the current bar. -/
def lineGet (l : List Rat) (size : Nat) : List Rat := l.drop (l.length - size)

namespace TradeAnalyzer

/-- Embedding of trd.event: a single fill, with the executed signed size,
execution price, commission, and the execution date of the order
(event.order.executed.dt). -/
structure FillEvent where
  size : Rat
  price : Rat
  commission : Rat
  orderExecDt : Nat
deriving DecidableEq

/-- Embedding of trd.status: the position snapshot after the fill, with the
net signed size, the average-cost price, the number of bars the position has
been open, and the snapshot date. -/
structure StatusSnap where
  size : Rat
  price : Rat
  barlen : Nat
  dt : Nat
deriving DecidableEq

/-- Embedding of one backtrader.trade.TradeHistory element: an event and the
status observed after it. -/
structure HistEntry where
  event : FillEvent
  status : StatusSnap
deriving DecidableEq

/-- Embedding of the price data feed attached to a trade: a close series and
optional high and low series (none when _colmapping lacks the column). -/
structure PriceData where
  closes : List Rat
  highs : Option (List Rat)
  lows : Option (List Rat)
deriving DecidableEq

/-- Embedding of the backtrader.trade.Trade object as seen by
TradeAnalyzer._handle_trade: reference id, the long flag, the accumulated
history, the data name and the price data. -/
structure Trade where
  ref : Nat
  long : Bool
  history : List HistEntry
  dataname : String
  data : PriceData
deriving DecidableEq

/-- Modelled from the spec: the semantics of the Trade.long flag set by
backtrader/trade.py (code of this repository that is not under src/).  Per
the spec, the direction of a trade reference is determined by the sign of
the net size after the most recent leg that left a non-zero position; none
when no leg ever left a non-zero position. -/
def specDirection (history : List HistEntry) : Option Bool :=
  ((history.filter fun e => decide (e.status.size ≠ 0)).getLast?).map
    fun e => decide (0 < e.status.size)

/-- Embedding of one row appended to the trade ledger (a python dict); the
close-leg-only fields are options, none on open legs. -/
structure LegRecord where
  refId : Nat
  tradeId : Nat
  ticker : String
  action : String
  exeDate : Nat
  exePrice : Rat
  avgCost : Rat
  exeQty : Rat
  openQty : Rat
  tradeValue : Rat
  commission : Rat
  chngPct : Option Rat
  pnl : Option Rat
  pnlPct : Option Rat
  nbars : Option Nat
  pnlPerBar : Option Rat
  maxFloatinProfit : Option Rat
  maxFloatingLoss : Option Rat
deriving DecidableEq

/-- Embedding of the mutable state of a TradeAnalyzer instance: the open and
close trade lists and the universal trade id counter. -/
structure AnalyzerState where
  openTrades : List LegRecord
  closeTrades : List LegRecord
  tradeId : Nat
deriving DecidableEq

/-- Embedding of TradeAnalyzer._handle_trade.  brokerValue is the ambient
self.strategy.broker.getvalue().  Python exceptions (ZeroDivisionError on a
zero broker value or zero average cost, ValueError from max() on an empty
window) become Except.error; on success exactly one record is appended and
the trade id counter is incremented. -/
def handleTrade (brokerValue : Rat) (t : Trade) (s : AnalyzerState) :
    Except String AnalyzerState :=
  match t.history.getLast? with
  | none => Except.error "IndexError: trade history is empty"
  | some trd =>
    let direction := if t.long then "long" else "short"
    let action := if 0 < trd.event.size * trd.status.size then "open" else "close"
    let actionDirection := action ++ " " ++ direction
    let exePrice := trd.event.price
    let openQty := trd.status.size
    let exeQty := trd.event.size
    let exeDate := trd.event.orderExecDt
    let trdValue := exePrice * exeQty
    if action = "open" then
      Except.ok { s with
        openTrades := s.openTrades ++ [{
          refId := t.ref, tradeId := s.tradeId, ticker := t.dataname,
          action := actionDirection, exeDate := exeDate, exePrice := exePrice,
          avgCost := trd.status.price, exeQty := exeQty, openQty := openQty,
          tradeValue := |trdValue|, commission := trd.event.commission,
          chngPct := none, pnl := none, pnlPct := none, nbars := none,
          pnlPerBar := none, maxFloatinProfit := none, maxFloatingLoss := none }],
        tradeId := s.tradeId + 1 }
    else
      if brokerValue = 0 then
        Except.error "ZeroDivisionError: float division by zero"
      else
        let nbars := trd.status.barlen
        let pnl0 := (trd.event.price - trd.status.price) * |trd.event.size|
        let pnl := if direction = "long" then pnl0 else -pnl0
        let pnlPercent := pnl / brokerValue
        let pnlPerBar := if nbars ≠ 0 then pnl / (nbars : Rat) else 0
        let highLine := t.data.highs.getD t.data.closes
        let lowLine := t.data.lows.getD t.data.closes
        match (lineGet highLine (nbars + 1)).max?, (lineGet lowLine (nbars + 1)).min? with
        | some priceMax, some priceMin =>
          if trd.status.price = 0 then
            Except.error "ZeroDivisionError: float division by zero"
          else
            let highestPriceChange := priceMax / trd.status.price - 1
            let lowestPriceChange := priceMin / trd.status.price - 1
            let mfp := if direction = "long" then highestPriceChange else -lowestPriceChange
            let mfl := if direction = "long" then lowestPriceChange else -highestPriceChange
            Except.ok { s with
              closeTrades := s.closeTrades ++ [{
                refId := t.ref, tradeId := s.tradeId, ticker := t.dataname,
                action := actionDirection, exeDate := exeDate, exePrice := exePrice,
                avgCost := trd.status.price, exeQty := exeQty, openQty := openQty,
                tradeValue := |trdValue|, commission := trd.event.commission,
                chngPct := some (exePrice / trd.status.price - 1),
                pnl := some pnl, pnlPct := some pnlPercent, nbars := some nbars,
                pnlPerBar := some (round4 pnlPerBar),
                maxFloatinProfit := some (round4 mfp),
                maxFloatingLoss := some (round4 mfl) }],
              tradeId := s.tradeId + 1 }
        | _, _ => Except.error "ValueError: max() arg is an empty sequence"

/-- The fixed column list returned by TradeAnalyzer.get_analysis on an empty
ledger. -/
def tradeColumns : List String :=
  ["ref_id", "trade_id", "ticker", "action", "exe_date", "exe_price",
   "avg_cost", "exe_qty", "open_qty", "trade_value", "commission",
   "chng%", "pnl", "pnl%", "nbars", "pnl/bar",
   "max_floatin_profit", "max_floating_loss"]

/-- The lexicographic sort key order used by get_analysis:
sort_values(by=["exe_date", "trade_id", "ticker"]) ascending. -/
def legLE (a b : LegRecord) : Prop :=
  a.exeDate < b.exeDate ∨
    (a.exeDate = b.exeDate ∧
      (a.tradeId < b.tradeId ∨ (a.tradeId = b.tradeId ∧ a.ticker ≤ b.ticker)))

instance : DecidableRel legLE := fun a b => by
  unfold legLE; infer_instance

instance : IsTotal LegRecord legLE where
  total a b := by
    unfold legLE
    rcases Nat.lt_trichotomy a.exeDate b.exeDate with h | h | h
    · exact Or.inl (Or.inl h)
    · rcases Nat.lt_trichotomy a.tradeId b.tradeId with h2 | h2 | h2
      · exact Or.inl (Or.inr ⟨h, Or.inl h2⟩)
      · rcases le_total a.ticker b.ticker with h3 | h3
        · exact Or.inl (Or.inr ⟨h, Or.inr ⟨h2, h3⟩⟩)
        · exact Or.inr (Or.inr ⟨h.symm, Or.inr ⟨h2.symm, h3⟩⟩)
      · exact Or.inr (Or.inr ⟨h.symm, Or.inl h2⟩)
    · exact Or.inr (Or.inl h)

instance : IsTrans LegRecord legLE where
  trans a b c hab hbc := by
    unfold legLE at *
    rcases hab with h1 | ⟨e1, h1⟩
    · rcases hbc with h2 | ⟨e2, _⟩
      · exact Or.inl (h1.trans h2)
      · exact Or.inl (e2 ▸ h1)
    · rcases hbc with h2 | ⟨e2, h2⟩
      · exact Or.inl (e1 ▸ h2)
      · refine Or.inr ⟨e1.trans e2, ?_⟩
        rcases h1 with h1 | ⟨f1, h1⟩
        · rcases h2 with h2 | ⟨f2, _⟩
          · exact Or.inl (h1.trans h2)
          · exact Or.inl (f2 ▸ h1)
        · rcases h2 with h2 | ⟨f2, h2⟩
          · exact Or.inl (f1 ▸ h2)
          · exact Or.inr ⟨f1.trans f2, h1.trans h2⟩

/-- The finalized trade table: a column list and the sorted rows. -/
structure AnalysisTable where
  columns : List String
  rows : List LegRecord
deriving DecidableEq

/-- Embedding of TradeAnalyzer.get_analysis: concatenate the open and close
trade lists; on an empty ledger return a zero-row table with the fixed
column set, otherwise the rows sorted ascending by
(exe_date, trade_id, ticker). -/
def get_analysis (s : AnalyzerState) : AnalysisTable :=
  let trades := s.openTrades ++ s.closeTrades
  if trades.isEmpty then
    { columns := tradeColumns, rows := [] }
  else
    { columns := tradeColumns, rows := List.insertionSort legLE trades }


/-- The record appended by _handle_trade for an opening leg. -/
def openRecord (t : Trade) (trd : HistEntry) (tid : Nat) : LegRecord :=
  { refId := t.ref, tradeId := tid, ticker := t.dataname,
    action := (if t.long then "open long" else "open short"),
    exeDate := trd.event.orderExecDt, exePrice := trd.event.price,
    avgCost := trd.status.price, exeQty := trd.event.size,
    openQty := trd.status.size,
    tradeValue := |trd.event.price * trd.event.size|,
    commission := trd.event.commission,
    chngPct := none, pnl := none, pnlPct := none, nbars := none,
    pnlPerBar := none, maxFloatinProfit := none, maxFloatingLoss := none }

/-- The record appended by _handle_trade for a closing leg, given the max
and min of the looked-up price window. -/
def closeRecord (bval : Rat) (t : Trade) (trd : HistEntry) (tid : Nat)
    (pmax pmin : Rat) : LegRecord :=
  let pnl0 := (trd.event.price - trd.status.price) * |trd.event.size|
  let pnl := if t.long then pnl0 else -pnl0
  { refId := t.ref, tradeId := tid, ticker := t.dataname,
    action := (if t.long then "close long" else "close short"),
    exeDate := trd.event.orderExecDt, exePrice := trd.event.price,
    avgCost := trd.status.price, exeQty := trd.event.size,
    openQty := trd.status.size,
    tradeValue := |trd.event.price * trd.event.size|,
    commission := trd.event.commission,
    chngPct := some (trd.event.price / trd.status.price - 1),
    pnl := some pnl, pnlPct := some (pnl / bval),
    nbars := some trd.status.barlen,
    pnlPerBar := some (round4 (if trd.status.barlen ≠ 0 then pnl / (trd.status.barlen : Rat) else 0)),
    maxFloatinProfit := some (round4 (if t.long then pmax / trd.status.price - 1
      else -(pmin / trd.status.price - 1))),
    maxFloatingLoss := some (round4 (if t.long then pmin / trd.status.price - 1
      else -(pmax / trd.status.price - 1))) }

theorem handleTrade_open_eq (bval : Rat) (t : Trade) (s : AnalyzerState)
    (trd : HistEntry) (hlast : t.history.getLast? = some trd)
    (hp : 0 < trd.event.size * trd.status.size) :
    handleTrade bval t s = Except.ok
      { s with openTrades := s.openTrades ++ [openRecord t trd s.tradeId],
               tradeId := s.tradeId + 1 } := by
  cases hl : t.long <;>
    simp only [handleTrade, hlast, hl, if_pos hp, openRecord] <;> rfl

theorem handleTrade_open_inv (bval : Rat) (t : Trade) (s s' : AnalyzerState)
    (trd : HistEntry) (hlast : t.history.getLast? = some trd)
    (hp : 0 < trd.event.size * trd.status.size)
    (hok : handleTrade bval t s = Except.ok s') :
    s' = { s with openTrades := s.openTrades ++ [openRecord t trd s.tradeId],
                  tradeId := s.tradeId + 1 } := by
  rw [handleTrade_open_eq bval t s trd hlast hp] at hok
  exact (Except.ok.inj hok).symm

theorem handleTrade_close_eq (bval : Rat) (t : Trade) (s : AnalyzerState)
    (trd : HistEntry) (pmax pmin : Rat)
    (hlast : t.history.getLast? = some trd)
    (hp : ¬ 0 < trd.event.size * trd.status.size)
    (hbv : bval ≠ 0)
    (hmax : (lineGet (t.data.highs.getD t.data.closes) (trd.status.barlen + 1)).max? = some pmax)
    (hmin : (lineGet (t.data.lows.getD t.data.closes) (trd.status.barlen + 1)).min? = some pmin)
    (hac : trd.status.price ≠ 0) :
    handleTrade bval t s = Except.ok
      { s with closeTrades := s.closeTrades ++ [closeRecord bval t trd s.tradeId pmax pmin],
               tradeId := s.tradeId + 1 } := by
  cases hl : t.long <;>
    simp only [handleTrade, hlast, hl, if_neg hp, if_neg hbv, hmax, hmin,
      if_neg hac, closeRecord] <;> rfl

theorem handleTrade_close_inv (bval : Rat) (t : Trade) (s s' : AnalyzerState)
    (trd : HistEntry) (hlast : t.history.getLast? = some trd)
    (hp : ¬ 0 < trd.event.size * trd.status.size)
    (hok : handleTrade bval t s = Except.ok s') :
    ∃ pmax pmin : Rat, bval ≠ 0 ∧
      (lineGet (t.data.highs.getD t.data.closes) (trd.status.barlen + 1)).max? = some pmax ∧
      (lineGet (t.data.lows.getD t.data.closes) (trd.status.barlen + 1)).min? = some pmin ∧
      trd.status.price ≠ 0 ∧
      s' = { s with closeTrades := s.closeTrades ++ [closeRecord bval t trd s.tradeId pmax pmin],
                    tradeId := s.tradeId + 1 } := by
  have hco : ¬ (("close" : String) = "open") := by decide
  by_cases hbv : bval = 0
  · exfalso
    simp only [handleTrade, hlast, if_neg hp, if_neg hco, if_pos hbv] at hok
    exact Except.noConfusion hok
  · cases hM : (lineGet (t.data.highs.getD t.data.closes) (trd.status.barlen + 1)).max? with
    | none =>
        exfalso
        simp only [handleTrade, hlast, if_neg hp, if_neg hco, if_neg hbv, hM] at hok
        exact Except.noConfusion hok
    | some pmax =>
      cases hm : (lineGet (t.data.lows.getD t.data.closes) (trd.status.barlen + 1)).min? with
      | none =>
          exfalso
          simp only [handleTrade, hlast, if_neg hp, if_neg hco, if_neg hbv, hM, hm] at hok
          exact Except.noConfusion hok
      | some pmin =>
        by_cases hac : trd.status.price = 0
        · exfalso
          simp only [handleTrade, hlast, if_neg hp, if_neg hco, if_neg hbv, hM, hm,
            if_pos hac] at hok
          exact Except.noConfusion hok
        · refine ⟨pmax, pmin, hbv, rfl, rfl, hac, ?_⟩
          rw [handleTrade_close_eq bval t s trd pmax pmin hlast hp hbv hM hm hac] at hok
          exact (Except.ok.inj hok).symm

theorem specDirection_eq_none_iff (l : List HistEntry) :
    specDirection l = none ↔ ∀ e ∈ l, e.status.size = 0 := by
  simp [specDirection, List.getLast?_eq_none_iff, List.filter_eq_nil_iff]

theorem specDirection_concat_of_ne (hs : List HistEntry) (trd : HistEntry)
    (h : trd.status.size ≠ 0) :
    specDirection (hs ++ [trd]) = some (decide (0 < trd.status.size)) := by
  unfold specDirection
  rw [List.filter_append]
  have : List.filter (fun e => decide (e.status.size ≠ 0)) [trd] = [trd] := by
    simp [List.filter, h]
  rw [this, List.getLast?_concat]
  rfl

theorem specDirection_concat_of_zero (hs : List HistEntry) (trd : HistEntry)
    (h : trd.status.size = 0) :
    specDirection (hs ++ [trd]) = specDirection hs := by
  unfold specDirection
  rw [List.filter_append]
  have : List.filter (fun e => decide (e.status.size ≠ 0)) [trd] = [] := by
    simp [List.filter, h]
  rw [this, List.append_nil]

/-- C3: for every processed (fill, snapshot) pair, the leg is classified
open, and appended to the open trade list, if and only if the signed fill
quantity and the post-fill net size have the same nonzero sign; in
particular when the post-fill net size is zero a record is appended to the
close trade list, never the open one. -/
theorem open_iff_same_sign (bval : Rat) (t : Trade) (s s' : AnalyzerState)
    (trd : HistEntry) (hlast : t.history.getLast? = some trd)
    (hok : handleTrade bval t s = Except.ok s') :
    ((∃ r, s'.openTrades = s.openTrades ++ [r] ∧ s'.closeTrades = s.closeTrades) ↔
      ((0 < trd.event.size ∧ 0 < trd.status.size) ∨
        (trd.event.size < 0 ∧ trd.status.size < 0))) ∧
    (trd.status.size = 0 →
      ∃ r, s'.closeTrades = s.closeTrades ++ [r] ∧ s'.openTrades = s.openTrades ∧
        (r.action = "close long" ∨ r.action = "close short")) := by
  by_cases hp : 0 < trd.event.size * trd.status.size
  · have hs' := handleTrade_open_inv bval t s s' trd hlast hp hok
    constructor
    · constructor
      · intro _
        exact mul_pos_iff.mp hp
      · intro _
        exact ⟨openRecord t trd s.tradeId, by rw [hs'], by rw [hs']⟩
    · intro h0
      rw [h0, mul_zero] at hp
      exact absurd hp (lt_irrefl 0)
  · obtain ⟨pmax, pmin, _, _, _, _, hs'⟩ :=
      handleTrade_close_inv bval t s s' trd hlast hp hok
    constructor
    · constructor
      · rintro ⟨r, hr, -⟩
        rw [hs'] at hr
        exact absurd hr.symm (by simp)
      · intro hsgn
        exact absurd (mul_pos_iff.mpr hsgn) hp
    · intro _
      refine ⟨closeRecord bval t trd s.tradeId pmax pmin, by rw [hs'], by rw [hs'], ?_⟩
      cases hl : t.long
      · right
        simp [closeRecord, hl]
      · left
        simp [closeRecord, hl]

/-- The concrete opening-leg input used by the witnesses: a buy of one unit
at price 10 leaving a net position of one unit. -/
def wTradeOpen : Trade :=
  { ref := 7, long := true,
    history := [⟨⟨1, 10, 0, 3⟩, ⟨1, 10, 0, 3⟩⟩],
    dataname := "AAA", data := ⟨[10], none, none⟩ }

/-- C3 witness: the classification rule evaluated on the concrete opening
leg. -/
theorem open_iff_same_sign_witness :
    wTradeOpen.history.getLast? = some ⟨⟨1, 10, 0, 3⟩, ⟨1, 10, 0, 3⟩⟩ ∧
    handleTrade 1000 wTradeOpen ⟨[], [], 0⟩ =
      Except.ok ⟨[openRecord wTradeOpen ⟨⟨1, 10, 0, 3⟩, ⟨1, 10, 0, 3⟩⟩ 0], [], 1⟩ ∧
    (((∃ r, ([openRecord wTradeOpen ⟨⟨1, 10, 0, 3⟩, ⟨1, 10, 0, 3⟩⟩ 0] :
          List LegRecord) = [] ++ [r] ∧ ([] : List LegRecord) = []) ↔
      ((0 < (1 : Rat) ∧ 0 < (1 : Rat)) ∨ ((1 : Rat) < 0 ∧ (1 : Rat) < 0))) ∧
     ((1 : Rat) = 0 →
      ∃ r, ([] : List LegRecord) = [] ++ [r] ∧
        ([openRecord wTradeOpen ⟨⟨1, 10, 0, 3⟩, ⟨1, 10, 0, 3⟩⟩ 0] :
          List LegRecord) = [] ∧
        (r.action = "close long" ∨ r.action = "close short"))) := by
  have hok : handleTrade 1000 wTradeOpen ⟨[], [], 0⟩ =
      Except.ok ⟨[openRecord wTradeOpen ⟨⟨1, 10, 0, 3⟩, ⟨1, 10, 0, 3⟩⟩ 0], [], 1⟩ := by
    with_unfolding_all rfl
  exact ⟨rfl, hok,
    open_iff_same_sign 1000 wTradeOpen ⟨[], [], 0⟩ _ _ rfl hok⟩


/-- C4: for every close leg, the realized pnl recorded in the ledger equals
(fill price minus average cost) times the absolute executed quantity,
negated when the recorded direction is short; hence a long close above
average cost has positive pnl and a short close above average cost has
negative pnl. -/
theorem close_pnl_formula (bval : Rat) (t : Trade) (s s' : AnalyzerState)
    (trd : HistEntry) (hlast : t.history.getLast? = some trd)
    (hp : ¬ 0 < trd.event.size * trd.status.size)
    (hok : handleTrade bval t s = Except.ok s') :
    ∃ r p, s'.closeTrades = s.closeTrades ++ [r] ∧ r.pnl = some p ∧
      (r.action = "close long" →
        p = (trd.event.price - trd.status.price) * |trd.event.size|) ∧
      (r.action = "close short" →
        p = -((trd.event.price - trd.status.price) * |trd.event.size|)) ∧
      (r.action = "close long" → trd.status.price < trd.event.price →
        trd.event.size ≠ 0 → 0 < p) ∧
      (r.action = "close short" → trd.status.price < trd.event.price →
        trd.event.size ≠ 0 → p < 0) := by
  obtain ⟨pmax, pmin, _, _, _, _, hs'⟩ :=
    handleTrade_close_inv bval t s s' trd hlast hp hok
  have hact : (closeRecord bval t trd s.tradeId pmax pmin).action =
      (if t.long then "close long" else "close short") := rfl
  refine ⟨closeRecord bval t trd s.tradeId pmax pmin,
    (if t.long then (trd.event.price - trd.status.price) * |trd.event.size|
      else -((trd.event.price - trd.status.price) * |trd.event.size|)),
    by rw [hs'], rfl, ?_, ?_, ?_, ?_⟩
  · intro ha
    cases hl : t.long
    · rw [hact, hl] at ha
      exact absurd ha (by decide)
    · rfl
  · intro ha
    cases hl : t.long
    · rfl
    · rw [hact, hl] at ha
      exact absurd ha (by decide)
  · intro ha hlt hsz
    cases hl : t.long
    · rw [hact, hl] at ha
      exact absurd ha (by decide)
    · exact mul_pos (sub_pos.mpr hlt) (abs_pos.mpr hsz)
  · intro ha hlt hsz
    cases hl : t.long
    · exact neg_lt_zero.mpr (mul_pos (sub_pos.mpr hlt) (abs_pos.mpr hsz))
    · rw [hact, hl] at ha
      exact absurd ha (by decide)

/-- The concrete closing-leg input used by the witnesses: the spec scenario
of a long position of 10 units with average cost 100, fully closed at price
110 after 5 bars, with a high/low window whose max is 112 and min is 98. -/
def wTradeClose : Trade :=
  { ref := 2, long := true,
    history := [⟨⟨10, 100, 0, 1⟩, ⟨10, 100, 0, 1⟩⟩,
                ⟨⟨-10, 110, 0, 6⟩, ⟨0, 100, 5, 6⟩⟩],
    dataname := "AAA",
    data := { closes := [100, 100, 100, 100, 100, 100],
              highs := some [105, 107, 112, 108, 110, 110],
              lows := some [99, 98, 100, 104, 106, 108] } }

/-- The final history entry of the concrete closing-leg input. -/
def wTrdClose : HistEntry := ⟨⟨-10, 110, 0, 6⟩, ⟨0, 100, 5, 6⟩⟩

/-- The analyzer state after processing the concrete closing leg from an
empty ledger. -/
def wCloseState : AnalyzerState :=
  ⟨[], [closeRecord 10000 wTradeClose wTrdClose 0 112 98], 1⟩

/-- C4 witness: the pnl formula evaluated on the concrete closing leg; the
recorded pnl is (110 - 100) * 10 = 100. -/
theorem close_pnl_formula_witness :
    wTradeClose.history.getLast? = some wTrdClose ∧
    (¬ 0 < wTrdClose.event.size * wTrdClose.status.size) ∧
    handleTrade 10000 wTradeClose ⟨[], [], 0⟩ = Except.ok wCloseState ∧
    (closeRecord 10000 wTradeClose wTrdClose 0 112 98).pnl = some 100 ∧
    (∃ r p, wCloseState.closeTrades = [] ++ [r] ∧ r.pnl = some p ∧
      (r.action = "close long" →
        p = (wTrdClose.event.price - wTrdClose.status.price) * |wTrdClose.event.size|) ∧
      (r.action = "close short" →
        p = -((wTrdClose.event.price - wTrdClose.status.price) * |wTrdClose.event.size|)) ∧
      (r.action = "close long" → wTrdClose.status.price < wTrdClose.event.price →
        wTrdClose.event.size ≠ 0 → 0 < p) ∧
      (r.action = "close short" → wTrdClose.status.price < wTrdClose.event.price →
        wTrdClose.event.size ≠ 0 → p < 0)) := by
  have hp : ¬ 0 < wTrdClose.event.size * wTrdClose.status.size := by
    with_unfolding_all exact of_decide_eq_true rfl
  have hok : handleTrade 10000 wTradeClose ⟨[], [], 0⟩ = Except.ok wCloseState := by
    with_unfolding_all rfl
  exact ⟨rfl, hp, hok, by with_unfolding_all rfl,
    close_pnl_formula 10000 wTradeClose ⟨[], [], 0⟩ wCloseState wTrdClose rfl hp hok⟩

/-- C5: for every close leg, the excursion metrics are the window max and
min over average cost minus one, swapped and negated for a short direction,
and both they and the pnl per bar are rounded to four decimals. -/
theorem close_excursions (bval : Rat) (t : Trade) (s s' : AnalyzerState)
    (trd : HistEntry) (pmax pmin : Rat)
    (hlast : t.history.getLast? = some trd)
    (hp : ¬ 0 < trd.event.size * trd.status.size)
    (hmax : (lineGet (t.data.highs.getD t.data.closes) (trd.status.barlen + 1)).max? = some pmax)
    (hmin : (lineGet (t.data.lows.getD t.data.closes) (trd.status.barlen + 1)).min? = some pmin)
    (hok : handleTrade bval t s = Except.ok s') :
    ∃ r p, s'.closeTrades = s.closeTrades ++ [r] ∧ r.pnl = some p ∧
      r.nbars = some trd.status.barlen ∧
      r.pnlPerBar = some (round4
        (if trd.status.barlen ≠ 0 then p / (trd.status.barlen : Rat) else 0)) ∧
      (r.action = "close long" →
        r.maxFloatinProfit = some (round4 (pmax / trd.status.price - 1)) ∧
        r.maxFloatingLoss = some (round4 (pmin / trd.status.price - 1))) ∧
      (r.action = "close short" →
        r.maxFloatinProfit = some (round4 (-(pmin / trd.status.price - 1))) ∧
        r.maxFloatingLoss = some (round4 (-(pmax / trd.status.price - 1)))) := by
  obtain ⟨pmax', pmin', _, hM, hm, _, hs'⟩ :=
    handleTrade_close_inv bval t s s' trd hlast hp hok
  have epmax : pmax' = pmax := Option.some.inj (hM.symm.trans hmax)
  have epmin : pmin' = pmin := Option.some.inj (hm.symm.trans hmin)
  rw [epmax, epmin] at hs'
  have hact : (closeRecord bval t trd s.tradeId pmax pmin).action =
      (if t.long then "close long" else "close short") := rfl
  have hmfp : (closeRecord bval t trd s.tradeId pmax pmin).maxFloatinProfit =
      some (round4 (if t.long then pmax / trd.status.price - 1
        else -(pmin / trd.status.price - 1))) := rfl
  have hmfl : (closeRecord bval t trd s.tradeId pmax pmin).maxFloatingLoss =
      some (round4 (if t.long then pmin / trd.status.price - 1
        else -(pmax / trd.status.price - 1))) := rfl
  refine ⟨closeRecord bval t trd s.tradeId pmax pmin,
    (if t.long then (trd.event.price - trd.status.price) * |trd.event.size|
      else -((trd.event.price - trd.status.price) * |trd.event.size|)),
    by rw [hs'], rfl, rfl, rfl,
    ?_, ?_⟩
  · intro ha
    cases hl : t.long
    · rw [hact, hl] at ha
      exact absurd ha (by decide)
    · rw [hmfp, hmfl, hl]
      exact ⟨rfl, rfl⟩
  · intro ha
    cases hl : t.long
    · rw [hmfp, hmfl, hl]
      exact ⟨rfl, rfl⟩
    · rw [hact, hl] at ha
      exact absurd ha (by decide)

/-- C5 witness: the excursion formulas evaluated on the spec scenario; the
record holds pnl 100, pnl per bar 20, max favorable excursion 0.12 and max
adverse excursion -0.02. -/
theorem close_excursions_witness :
    (¬ 0 < wTrdClose.event.size * wTrdClose.status.size) ∧
    (lineGet (wTradeClose.data.highs.getD wTradeClose.data.closes)
      (wTrdClose.status.barlen + 1)).max? = some 112 ∧
    (lineGet (wTradeClose.data.lows.getD wTradeClose.data.closes)
      (wTrdClose.status.barlen + 1)).min? = some 98 ∧
    handleTrade 10000 wTradeClose ⟨[], [], 0⟩ = Except.ok wCloseState ∧
    (closeRecord 10000 wTradeClose wTrdClose 0 112 98).pnl = some 100 ∧
    (closeRecord 10000 wTradeClose wTrdClose 0 112 98).pnlPerBar = some 20 ∧
    (closeRecord 10000 wTradeClose wTrdClose 0 112 98).maxFloatinProfit = some (3/25) ∧
    (closeRecord 10000 wTradeClose wTrdClose 0 112 98).maxFloatingLoss = some (-(1/50)) ∧
    (∃ r p, wCloseState.closeTrades = [] ++ [r] ∧ r.pnl = some p ∧
      r.nbars = some wTrdClose.status.barlen ∧
      r.pnlPerBar = some (round4
        (if wTrdClose.status.barlen ≠ 0 then p / (wTrdClose.status.barlen : Rat) else 0)) ∧
      (r.action = "close long" →
        r.maxFloatinProfit = some (round4 (112 / wTrdClose.status.price - 1)) ∧
        r.maxFloatingLoss = some (round4 (98 / wTrdClose.status.price - 1))) ∧
      (r.action = "close short" →
        r.maxFloatinProfit = some (round4 (-(98 / wTrdClose.status.price - 1))) ∧
        r.maxFloatingLoss = some (round4 (-(112 / wTrdClose.status.price - 1))))) := by
  have hp : ¬ 0 < wTrdClose.event.size * wTrdClose.status.size := by
    with_unfolding_all exact of_decide_eq_true rfl
  have hmax : (lineGet (wTradeClose.data.highs.getD wTradeClose.data.closes)
      (wTrdClose.status.barlen + 1)).max? = some 112 := by with_unfolding_all rfl
  have hmin : (lineGet (wTradeClose.data.lows.getD wTradeClose.data.closes)
      (wTrdClose.status.barlen + 1)).min? = some 98 := by with_unfolding_all rfl
  have hok : handleTrade 10000 wTradeClose ⟨[], [], 0⟩ = Except.ok wCloseState := by
    with_unfolding_all rfl
  exact ⟨hp, hmax, hmin, hok, by with_unfolding_all rfl, by with_unfolding_all rfl,
    by with_unfolding_all rfl, by with_unfolding_all rfl,
    close_excursions 10000 wTradeClose ⟨[], [], 0⟩ wCloseState wTrdClose 112 98
      rfl hp hmax hmin hok⟩

/-- C1: for every processed pair, the direction component of the recorded
action string is long when the post-fill net size is positive and short
when it is negative; when the post-fill net size is zero it is the
direction carried from the most recent prior leg of the trade reference
that left a nonzero position.  The hypothesis ties the upstream long flag
to its spec-modelled semantics (backtrader trade.py is not under src/). -/
theorem direction_from_net_size (bval : Rat) (t : Trade) (s s' : AnalyzerState)
    (hs : List HistEntry) (trd : HistEntry)
    (hh : t.history = hs ++ [trd])
    (hlong : specDirection t.history = some t.long)
    (hok : handleTrade bval t s = Except.ok s') :
    ∃ r : LegRecord,
      ((s'.openTrades = s.openTrades ++ [r] ∧ s'.closeTrades = s.closeTrades) ∨
        (s'.closeTrades = s.closeTrades ++ [r] ∧ s'.openTrades = s.openTrades)) ∧
      (0 < trd.status.size → r.action = "open long" ∨ r.action = "close long") ∧
      (trd.status.size < 0 → r.action = "open short" ∨ r.action = "close short") ∧
      (trd.status.size = 0 → specDirection hs = some true →
        r.action = "open long" ∨ r.action = "close long") ∧
      (trd.status.size = 0 → specDirection hs = some false →
        r.action = "open short" ∨ r.action = "close short") := by
  have hlast : t.history.getLast? = some trd := by
    rw [hh]
    exact List.getLast?_concat _
  have hne : trd.status.size ≠ 0 → t.long = decide (0 < trd.status.size) := by
    intro h
    have h1 := specDirection_concat_of_ne hs trd h
    rw [hh] at hlong
    exact Option.some.inj (hlong.symm.trans h1)
  have hzr : trd.status.size = 0 → specDirection hs = some t.long := by
    intro h
    have h1 := specDirection_concat_of_zero hs trd h
    rw [hh] at hlong
    exact h1.symm.trans hlong
  by_cases hp : 0 < trd.event.size * trd.status.size
  · have hs' := handleTrade_open_inv bval t s s' trd hlast hp hok
    have hoact : (openRecord t trd s.tradeId).action =
        (if t.long then "open long" else "open short") := rfl
    refine ⟨openRecord t trd s.tradeId, Or.inl ⟨by rw [hs'], by rw [hs']⟩,
      ?_, ?_, ?_, ?_⟩
    · intro hpos
      have hl : t.long = true := by rw [hne (ne_of_gt hpos)]; exact decide_eq_true hpos
      left
      rw [hoact, hl]
      decide
    · intro hneg
      have hl : t.long = false := by
        rw [hne (ne_of_lt hneg)]
        exact decide_eq_false (lt_asymm hneg)
      left
      rw [hoact, hl]
      decide
    · intro h0 hb
      have hl : t.long = true := Option.some.inj ((hzr h0).symm.trans hb)
      left
      rw [hoact, hl]
      decide
    · intro h0 hb
      have hl : t.long = false := Option.some.inj ((hzr h0).symm.trans hb)
      left
      rw [hoact, hl]
      decide
  · obtain ⟨pmax, pmin, _, _, _, _, hs'⟩ :=
      handleTrade_close_inv bval t s s' trd hlast hp hok
    have hcact : (closeRecord bval t trd s.tradeId pmax pmin).action =
        (if t.long then "close long" else "close short") := rfl
    refine ⟨closeRecord bval t trd s.tradeId pmax pmin,
      Or.inr ⟨by rw [hs'], by rw [hs']⟩, ?_, ?_, ?_, ?_⟩
    · intro hpos
      have hl : t.long = true := by rw [hne (ne_of_gt hpos)]; exact decide_eq_true hpos
      right
      rw [hcact, hl]
      decide
    · intro hneg
      have hl : t.long = false := by
        rw [hne (ne_of_lt hneg)]
        exact decide_eq_false (lt_asymm hneg)
      right
      rw [hcact, hl]
      decide
    · intro h0 hb
      have hl : t.long = true := Option.some.inj ((hzr h0).symm.trans hb)
      right
      rw [hcact, hl]
      decide
    · intro h0 hb
      have hl : t.long = false := Option.some.inj ((hzr h0).symm.trans hb)
      right
      rw [hcact, hl]
      decide

/-- C1 witness: the direction rule evaluated on the concrete closing leg:
the net size after the close is zero and the recorded direction is the one
carried from the prior opening leg, which left a positive position. -/
theorem direction_from_net_size_witness :
    wTradeClose.history = [⟨⟨10, 100, 0, 1⟩, ⟨10, 100, 0, 1⟩⟩] ++ [wTrdClose] ∧
    specDirection wTradeClose.history = some wTradeClose.long ∧
    handleTrade 10000 wTradeClose ⟨[], [], 0⟩ = Except.ok wCloseState ∧
    specDirection [⟨⟨10, 100, 0, 1⟩, ⟨10, 100, 0, 1⟩⟩] = some true ∧
    (∃ r : LegRecord,
      ((wCloseState.openTrades = [] ++ [r] ∧ wCloseState.closeTrades = []) ∨
        (wCloseState.closeTrades = [] ++ [r] ∧ wCloseState.openTrades = [])) ∧
      (0 < wTrdClose.status.size → r.action = "open long" ∨ r.action = "close long") ∧
      (wTrdClose.status.size < 0 → r.action = "open short" ∨ r.action = "close short") ∧
      (wTrdClose.status.size = 0 →
        specDirection [⟨⟨10, 100, 0, 1⟩, ⟨10, 100, 0, 1⟩⟩] = some true →
        r.action = "open long" ∨ r.action = "close long") ∧
      (wTrdClose.status.size = 0 →
        specDirection [⟨⟨10, 100, 0, 1⟩, ⟨10, 100, 0, 1⟩⟩] = some false →
        r.action = "open short" ∨ r.action = "close short")) := by
  have hlong : specDirection wTradeClose.history = some wTradeClose.long := by
    with_unfolding_all rfl
  have hok : handleTrade 10000 wTradeClose ⟨[], [], 0⟩ = Except.ok wCloseState := by
    with_unfolding_all rfl
  exact ⟨rfl, hlong, hok, by with_unfolding_all rfl,
    direction_from_net_size 10000 wTradeClose ⟨[], [], 0⟩ wCloseState
      [⟨⟨10, 100, 0, 1⟩, ⟨10, 100, 0, 1⟩⟩] wTrdClose rfl hlong hok⟩

/-- The concrete input of the C2 counterexample: a close fill of one unit
against a flat position, with no prior leg ever leaving a nonzero
position (so no direction was ever established), and an unset long flag. -/
def noDirTrade : Trade :=
  { ref := 1, long := false,
    history := [⟨⟨-1, 100, 0, 0⟩, ⟨0, 100, 0, 0⟩⟩],
    dataname := "AAA", data := ⟨[100], none, none⟩ }

/-- C2 counterexample: a close leg with no established direction does not
raise any error; _handle_trade succeeds and appends a record whose action
silently defaults to close short. -/
theorem close_no_direction_counterexample :
    specDirection noDirTrade.history = none ∧
    handleTrade 1000 noDirTrade ⟨[], [], 0⟩ = Except.ok
      ⟨[], [closeRecord 1000 noDirTrade ⟨⟨-1, 100, 0, 0⟩, ⟨0, 100, 0, 0⟩⟩ 0 100 100], 1⟩ ∧
    (closeRecord 1000 noDirTrade ⟨⟨-1, 100, 0, 0⟩, ⟨0, 100, 0, 0⟩⟩ 0 100 100).action
      = "close short" := by
  refine ⟨?_, ?_, ?_⟩ <;> with_unfolding_all rfl

/-- C2 amended: a close leg for a trade reference with no established
direction does not raise; the code silently takes the direction from the
long flag of the trade object and appends exactly one close record. -/
theorem close_no_direction_appends (bval : Rat) (t : Trade) (s s' : AnalyzerState)
    (trd : HistEntry) (hlast : t.history.getLast? = some trd)
    (hnodir : specDirection t.history = none)
    (hok : handleTrade bval t s = Except.ok s') :
    ∃ r, s'.closeTrades = s.closeTrades ++ [r] ∧ s'.openTrades = s.openTrades ∧
      r.action = (if t.long then "close long" else "close short") := by
  have hmem : trd ∈ t.history := by
    obtain ⟨hnil, heq⟩ := List.mem_getLast?_eq_getLast (l := t.history) (x := trd) hlast
    exact heq ▸ List.getLast_mem hnil
  have hsz : trd.status.size = 0 := (specDirection_eq_none_iff _).mp hnodir trd hmem
  have hp : ¬ 0 < trd.event.size * trd.status.size := by
    rw [hsz, mul_zero]
    exact lt_irrefl 0
  obtain ⟨pmax, pmin, _, _, _, _, hs'⟩ :=
    handleTrade_close_inv bval t s s' trd hlast hp hok
  exact ⟨closeRecord bval t trd s.tradeId pmax pmin, by rw [hs'], by rw [hs'], rfl⟩

/-- C2 amended witness: the amended statement evaluated on the concrete
direction-less close fill. -/
theorem close_no_direction_appends_witness :
    specDirection noDirTrade.history = none ∧
    handleTrade 1000 noDirTrade ⟨[], [], 0⟩ = Except.ok
      ⟨[], [closeRecord 1000 noDirTrade ⟨⟨-1, 100, 0, 0⟩, ⟨0, 100, 0, 0⟩⟩ 0 100 100], 1⟩ ∧
    (∃ r, ([closeRecord 1000 noDirTrade ⟨⟨-1, 100, 0, 0⟩, ⟨0, 100, 0, 0⟩⟩ 0 100 100] :
        List LegRecord) = [] ++ [r] ∧
      ([] : List LegRecord) = [] ∧
      r.action = (if noDirTrade.long then "close long" else "close short")) := by
  have hnodir : specDirection noDirTrade.history = none := by with_unfolding_all rfl
  have hok : handleTrade 1000 noDirTrade ⟨[], [], 0⟩ = Except.ok
      ⟨[], [closeRecord 1000 noDirTrade ⟨⟨-1, 100, 0, 0⟩, ⟨0, 100, 0, 0⟩⟩ 0 100 100], 1⟩ := by
    with_unfolding_all rfl
  exact ⟨hnodir, hok,
    close_no_direction_appends 1000 noDirTrade ⟨[], [], 0⟩ _ _ rfl hnodir hok⟩

/-- C7: get_analysis is a total function, so it never errors; on an empty
ledger it returns a zero-row table whose columns are exactly the fixed
union of the common and close-leg fields, and its rows are always sorted
ascending by (execution date, leg sequence number, instrument identifier). -/
theorem get_analysis_empty_schema_and_sorted :
    (∀ n : Nat, get_analysis ⟨[], [], n⟩ = ⟨tradeColumns, []⟩) ∧
    (∀ s : AnalyzerState, List.Sorted legLE (get_analysis s).rows) := by
  constructor
  · intro n
    rfl
  · intro s
    by_cases h : (s.openTrades ++ s.closeTrades).isEmpty
    · simp only [get_analysis, h, if_true]
      exact List.sorted_nil
    · simp only [get_analysis, h, if_false, Bool.false_eq_true]
      exact List.sorted_insertionSort legLE _

end TradeAnalyzer

namespace StrategyMaster

/-- The observable result of StrategyMaster.getPortfolioRealizedVol.
retZero stands for the literal 0.0 returns; annVol x stands for the value
np.sqrt(x) where x = sum(rets**2, where not nan) / count(not nan) * 252 is
the radicand (the square root itself is irrational, so the function result
is represented by its radicand, which determines it). -/
inductive VolResult where
  | retZero : VolResult
  | annVol : Rat → VolResult
deriving DecidableEq

/-- Embedding of the rets array computed by getPortfolioRealizedVol: the
elementwise ratio of the value series and the series rolled by one, minus 1,
computed only where the previous value is nonzero (np.divide with a where
mask over an out array prefilled with NaN, NaN embedded as none), with the
first entry then overwritten with 0. -/
def dayRets (total : List Rat) : List (Option Rat) :=
  if total.isEmpty then []
  else
    some 0 ::
      List.zipWith (fun prev cur => if prev = 0 then none else some (cur / prev - 1))
        total (total.drop 1)

/-- Embedding of np.sum(rets ** 2, where = not isnan(rets)): the sum of the
squares of the non-NaN entries. -/
def sumSq (rets : List (Option Rat)) : Rat :=
  rets.foldl (fun acc o => match o with | some x => acc + x * x | none => acc) 0

/-- Embedding of sum(not isnan(rets)): the count of non-NaN entries. -/
def validCount (rets : List (Option Rat)) : Nat :=
  rets.countP fun o => o.isSome

/-- Embedding of StrategyMaster.getPortfolioRealizedVol.  values is the
broker value line history (self.stats.broker.value), oldest first; its
get(0, n) is the most recent n entries (lineGet). -/
def getPortfolioRealizedVol (values : List Rat) (look_back_periods : Nat) :
    Except String VolResult :=
  let n := min look_back_periods values.length
  let total := lineGet values n
  if n = 0 then Except.ok VolResult.retZero
  else if total.length = 0 then
    Except.error "portfolio value is empty ... look back period could be too long ..."
  else
    let rets := dayRets total
    if rets.all (fun o => o.isNone) then Except.ok VolResult.retZero
    else Except.ok (VolResult.annVol (sumSq rets / (validCount rets : Rat) * 252))

theorem dayRets_cons (a : Rat) (tl : List Rat) :
    dayRets (a :: tl) =
      some 0 :: List.zipWith
        (fun prev cur => if prev = 0 then none else some (cur / prev - 1))
        (a :: tl) tl := by
  simp [dayRets]

theorem sumSq_nonneg_aux (rets : List (Option Rat)) :
    ∀ acc : Rat, 0 ≤ acc →
      0 ≤ rets.foldl (fun acc o => match o with
        | some x => acc + x * x | none => acc) acc := by
  induction rets with
  | nil => intro acc h; exact h
  | cons o tl ih =>
    intro acc h
    cases o with
    | none => exact ih acc h
    | some x => exact ih (acc + x * x) (add_nonneg h (mul_self_nonneg x))

theorem sumSq_nonneg (rets : List (Option Rat)) : 0 ≤ sumSq rets :=
  sumSq_nonneg_aux rets 0 le_rfl

theorem zipWith_getD_ratOpt
    (f : Rat → Rat → Option Rat) :
    ∀ (as bs : List Rat) (i : Nat), i < as.length → i < bs.length →
      (List.zipWith f as bs).getD i none = f (as.getD i 0) (bs.getD i 0) := by
  intro as
  induction as with
  | nil => intro bs i h _; exact absurd h (by simp)
  | cons a tl ih =>
    intro bs i h1 h2
    cases bs with
    | nil => exact absurd h2 (by simp)
    | cons b bs' =>
      cases i with
      | zero => rfl
      | succ j =>
        simp only [List.zipWith_cons_cons, List.getD_cons_succ]
        exact ih bs' j (by simpa using h1) (by simpa using h2)

/-- C6 counterexample: a lookback of 5 periods against a history holding
only two values is not surfaced as a failure; the window is silently
truncated and a realized volatility is computed and returned (the radicand
63/50 encodes sqrt(((110/100 - 1)^2) / 2 * 252)).  A lookback against an
empty (missing) history returns 0.0, also without error. -/
theorem lookback_too_long_counterexample :
    getPortfolioRealizedVol [100, 110] 5 = Except.ok (VolResult.annVol (63/50)) ∧
    getPortfolioRealizedVol [] 5 = Except.ok VolResult.retZero := by
  constructor <;> with_unfolding_all rfl

/-- C6 amended: a lookback that resolves to zero steps of history (a zero
window or an empty history) returns the neutral 0.0 without error; a
positive lookback against a nonempty history never errors either: the
window is truncated to the available history and an annualized volatility
is computed and returned. -/
theorem lookback_zero_and_truncation (values : List Rat) (lb : Nat) :
    (min lb values.length = 0 →
      getPortfolioRealizedVol values lb = Except.ok VolResult.retZero) ∧
    (1 ≤ lb → values ≠ [] →
      ∃ x, getPortfolioRealizedVol values lb = Except.ok (VolResult.annVol x)) := by
  constructor
  · intro h
    simp [getPortfolioRealizedVol, h]
  · intro hlb hv
    have hn : 1 ≤ min lb values.length :=
      Nat.le_min.mpr ⟨hlb, List.length_pos.mpr hv⟩
    have hlen : (lineGet values (min lb values.length)).length = min lb values.length := by
      simp only [lineGet, List.length_drop]
      omega
    obtain ⟨a, tl, he⟩ : ∃ a tl, lineGet values (min lb values.length) = a :: tl := by
      cases h : lineGet values (min lb values.length) with
      | nil => rw [h] at hlen; simp at hlen; omega
      | cons a tl => exact ⟨a, tl, rfl⟩
    refine ⟨sumSq (dayRets (lineGet values (min lb values.length))) /
      (validCount (dayRets (lineGet values (min lb values.length))) : Rat) * 252, ?_⟩
    have hall : ((dayRets (lineGet values (min lb values.length))).all
        fun o => o.isNone) = false := by
      rw [he, dayRets_cons]
      simp
    simp only [getPortfolioRealizedVol]
    rw [if_neg (by omega), if_neg (by rw [hlen]; omega), if_neg (by rw [hall]; simp)]

/-- C6 amended witness: the amended statement evaluated at a lookback of 5
periods against a two-step history. -/
theorem lookback_zero_and_truncation_witness :
    (1 ≤ 5) ∧ (([100, 110] : List Rat) ≠ []) ∧
    (∃ x, getPortfolioRealizedVol [100, 110] 5 = Except.ok (VolResult.annVol x)) := by
  refine ⟨by decide, by simp, ?_⟩
  exact (lookback_zero_and_truncation [100, 110] 5).2 (by decide) (by simp)

/-- C10: for every lookback resolving to at least one step of history, the
function returns a well-defined annualized volatility (never NaN): the
returns list starts with a forced 0 (so it is never all NaN and the
count of valid returns divided by is at least 1), the radicand of the
square root is nonnegative, and each later return is computed only where
the previous portfolio value is nonzero (NaN, embedded as none, is placed
where it is zero). -/
theorem realizedVol_no_nan (values : List Rat) (lb : Nat)
    (hlb : 1 ≤ lb) (hv : values ≠ []) :
    getPortfolioRealizedVol values lb = Except.ok (VolResult.annVol
      (sumSq (dayRets (lineGet values (min lb values.length))) /
        (validCount (dayRets (lineGet values (min lb values.length))) : Rat) * 252)) ∧
    (dayRets (lineGet values (min lb values.length))).head? = some (some 0) ∧
    1 ≤ validCount (dayRets (lineGet values (min lb values.length))) ∧
    0 ≤ sumSq (dayRets (lineGet values (min lb values.length))) /
      (validCount (dayRets (lineGet values (min lb values.length))) : Rat) * 252 ∧
    (∀ total : List Rat, ∀ i : Nat, i + 1 < total.length →
      (dayRets total).getD (i + 1) none =
        (if total.getD i 0 = 0 then none
          else some (total.getD (i + 1) 0 / total.getD i 0 - 1))) := by
  have hn : 1 ≤ min lb values.length :=
    Nat.le_min.mpr ⟨hlb, List.length_pos.mpr hv⟩
  have hlen : (lineGet values (min lb values.length)).length = min lb values.length := by
    simp only [lineGet, List.length_drop]
    omega
  obtain ⟨a, tl, he⟩ : ∃ a tl, lineGet values (min lb values.length) = a :: tl := by
    cases h : lineGet values (min lb values.length) with
    | nil => rw [h] at hlen; simp at hlen; omega
    | cons a tl => exact ⟨a, tl, rfl⟩
  have hall : ((dayRets (lineGet values (min lb values.length))).all
      fun o => o.isNone) = false := by
    rw [he, dayRets_cons]
    simp
  refine ⟨?_, ?_, ?_, ?_, ?_⟩
  · simp only [getPortfolioRealizedVol]
    rw [if_neg (by omega), if_neg (by rw [hlen]; omega), if_neg (by rw [hall]; simp)]
  · rw [he, dayRets_cons]
    rfl
  · rw [he, dayRets_cons]
    simp only [validCount, List.countP_cons]
    simp
  · have h1 : (0 : Rat) ≤ sumSq (dayRets (lineGet values (min lb values.length))) :=
      sumSq_nonneg _
    have h2 : (0 : Rat) ≤ (validCount (dayRets (lineGet values (min lb values.length))) : Rat) :=
      Nat.cast_nonneg _
    exact mul_nonneg (div_nonneg h1 h2) (by norm_num)
  · intro total i hi
    cases total with
    | nil => exact absurd hi (by simp)
    | cons a tl =>
      rw [dayRets_cons]
      simp only [List.getD_cons_succ]
      have := zipWith_getD_ratOpt
        (fun prev cur => if prev = 0 then none else some (cur / prev - 1))
        (a :: tl) tl i (by simp at hi ⊢; omega) (by simp at hi ⊢; omega)
      rw [this]

/-- C10 witness: the no-NaN statement evaluated at a lookback of 2 on the
history [100, 110]. -/
theorem realizedVol_no_nan_witness :
    (1 ≤ 2) ∧ (([100, 110] : List Rat) ≠ []) ∧
    getPortfolioRealizedVol [100, 110] 2 = Except.ok (VolResult.annVol
      (sumSq (dayRets (lineGet [100, 110] (min 2 ([100, 110] : List Rat).length))) /
        (validCount (dayRets (lineGet [100, 110] (min 2 ([100, 110] : List Rat).length))) : Rat)
          * 252)) ∧
    (dayRets (lineGet [100, 110] (min 2 ([100, 110] : List Rat).length))).head?
      = some (some 0) := by
  have h := realizedVol_no_nan [100, 110] 2 (by decide) (by simp)
  exact ⟨by decide, by simp, h.1, h.2.1⟩

end StrategyMaster

namespace PerformanceAnalyzer

/-- A pandas float as observed by the claims: a finite value, one of the two
infinities, or NaN. -/
inductive PFloat where
  | num : Rat → PFloat
  | inf : PFloat
  | ninf : PFloat
  | nan : PFloat
deriving DecidableEq

/-- IEEE-754 float division as performed by pandas DataFrame.div on the
finite table entries: a nonzero value divided by zero is a signed infinity
and 0/0 is NaN; NaN operands propagate.  The remaining mixed cases do not
arise in the embedded tables and follow IEEE NaN propagation for infinities
divided by infinities. -/
def fdiv : PFloat → PFloat → PFloat
  | PFloat.num a, PFloat.num b =>
      if b ≠ 0 then PFloat.num (a / b)
      else if a = 0 then PFloat.nan
      else if 0 < a then PFloat.inf else PFloat.ninf
  | _, _ => PFloat.nan

/-- IEEE-754 float addition: infinities of opposite sign give NaN, NaN
propagates. -/
def fadd : PFloat → PFloat → PFloat
  | PFloat.nan, _ => PFloat.nan
  | _, PFloat.nan => PFloat.nan
  | PFloat.inf, PFloat.ninf => PFloat.nan
  | PFloat.ninf, PFloat.inf => PFloat.nan
  | PFloat.inf, _ => PFloat.inf
  | _, PFloat.inf => PFloat.inf
  | PFloat.ninf, _ => PFloat.ninf
  | _, PFloat.ninf => PFloat.ninf
  | PFloat.num a, PFloat.num b => PFloat.num (a + b)

/-- Embedding of pandas fillna(0) on a float entry: NaN becomes 0, every
other value (infinities included) is kept. -/
def fillna0 (x : PFloat) : PFloat :=
  if x = PFloat.nan then PFloat.num 0 else x

/-- The IEEE sum of a list of float entries, as summing a table row does. -/
def pfSum (l : List PFloat) : PFloat := l.foldl fadd (PFloat.num 0)

/-- Embedding of a python dict update on an insertion-ordered association
list: replace in place when the key is present, append otherwise. -/
def dictUpdate {α : Type} (m : List (String × α)) (k : String) (v : α) :
    List (String × α) :=
  if m.any (fun p => p.1 = k) then
    m.map fun p => if p.1 = k then (k, v) else p
  else m ++ [(k, v)]

/-- Embedding of the mutable state of a PerformanceAnalyzer: the position
and value dicts, keyed by the timestamp string, each mapping instrument
names to numbers. -/
structure PerfState where
  position : List (String × List (String × Rat))
  value : List (String × List (String × Rat))
deriving DecidableEq

/-- The per-instrument loop of PerformanceAnalyzer.next: starting from an
empty dict, update the row with one entry per instrument, keyed by the
instrument name, with the value given by g (the position size for the
quantity table, size times close for the value table). -/
def buildRow (datas : List (String × Rat × Rat))
    (g : String × Rat × Rat → Rat) : List (String × Rat) :=
  datas.foldl (fun row d => dictUpdate row d.1 (g d)) []

/-- Embedding of PerformanceAnalyzer.next: datas lists, per instrument, its
name, position size and close price; the per-instrument rows are built by
dict updates, cash is then stored under the reserved key MNYFUND in both
rows, and the state dicts are updated at the timestamp key. -/
def next (s : PerfState) (dt : String) (datas : List (String × Rat × Rat))
    (cash : Rat) : PerfState :=
  let posRow := dictUpdate (buildRow datas fun d => d.2.1) "MNYFUND" cash
  let valRow := dictUpdate (buildRow datas fun d => d.2.1 * d.2.2) "MNYFUND" cash
  { position := dictUpdate s.position dt posRow,
    value := dictUpdate s.value dt valRow }

/-- The sum of a value row across its columns (value.sum(axis=1) on one
row); entries are finite, so the sum is a rational. -/
def rowSumRat (row : List (String × Rat)) : Rat := (row.map Prod.snd).sum

/-- The weight row derived from a value row: each value divided by the row
total, with NaN filled with 0 (wgt.div(value.sum(axis=1), axis=0).fillna(0)). -/
def weightRow (row : List (String × Rat)) : List (String × PFloat) :=
  row.map fun p => (p.1, fillna0 (fdiv (PFloat.num p.2) (PFloat.num (rowSumRat row))))

/-- The daily pnl column: total_value minus its shift by one, first entry
filled with 0. -/
def dailyPnlList (totals : List Rat) : List Rat :=
  match totals with
  | [] => []
  | _ :: rest => 0 :: List.zipWith (fun cur prev => cur - prev) rest totals

/-- The daily return column: pct_change of total_value, with the leading
NaN filled with 0; a division by a zero previous total produces an IEEE
special value exactly as pandas does. -/
def dailyReturnList (totals : List Rat) : List PFloat :=
  match totals with
  | [] => []
  | _ :: rest =>
      PFloat.num 0 ::
        List.zipWith
          (fun cur prev =>
            match fdiv (PFloat.num cur) (PFloat.num prev) with
            | PFloat.num q => PFloat.num (q - 1)
            | x => x)
          rest totals

/-- The four finalized tables of PerformanceAnalyzer.get_analysis. -/
structure PerfAnalysis where
  positionQty : List (String × List (String × Rat))
  positionValue : List (String × List (String × Rat))
  positionWgt : List (String × List (String × PFloat))
  totals : List (String × Rat)
  dailyPnl : List Rat
  dailyReturn : List PFloat
deriving DecidableEq

/-- Embedding of PerformanceAnalyzer.get_analysis: the quantity and value
tables as recorded, the weight table with each row divided by its total and
NaN filled with 0, and the derived portfolio series. -/
def get_analysis (s : PerfState) : PerfAnalysis :=
  let totals := s.value.map fun r => (r.1, rowSumRat r.2)
  { positionQty := s.position,
    positionValue := s.value,
    positionWgt := s.value.map fun r => (r.1, weightRow r.2),
    totals := totals,
    dailyPnl := dailyPnlList (totals.map Prod.snd),
    dailyReturn := dailyReturnList (totals.map Prod.snd) }

theorem dictUpdate_of_not_mem {α : Type} (m : List (String × α)) (k : String)
    (v : α) (h : ∀ p ∈ m, p.1 ≠ k) : dictUpdate m k v = m ++ [(k, v)] := by
  have hc : m.any (fun p => p.1 = k) = false := by
    rw [List.any_eq_false]
    intro p hp
    simpa using h p hp
  unfold dictUpdate
  rw [hc]
  rfl

theorem buildRow_eq_map (g : String × Rat × Rat → Rat) :
    ∀ (datas : List (String × Rat × Rat)) (acc : List (String × Rat)),
      (∀ d ∈ datas, ∀ p ∈ acc, p.1 ≠ d.1) →
      (datas.map Prod.fst).Nodup →
      datas.foldl (fun row d => dictUpdate row d.1 (g d)) acc =
        acc ++ datas.map fun d => (d.1, g d) := by
  intro datas
  induction datas with
  | nil => intro acc _ _; simp
  | cons b tl ih =>
    intro acc hacc hnod
    simp only [List.foldl_cons]
    rw [dictUpdate_of_not_mem acc b.1 (g b) (fun p hp => hacc b (by simp) p hp)]
    rw [ih (acc ++ [(b.1, g b)]) ?_ (by simpa using hnod.of_cons)]
    · simp
    · intro d hd p hp
      rcases List.mem_append.mp hp with hp1 | hp2
      · exact hacc d (by simp [hd]) p hp1
      · have hb : p = (b.1, g b) := by simpa using hp2
        rw [hb]
        have hhead : b.1 ∉ tl.map Prod.fst := by
          have h2 : (b.1 :: tl.map Prod.fst).Nodup := by simpa using hnod
          exact (List.nodup_cons.mp h2).1
        exact fun hc => hhead (hc ▸ List.mem_map_of_mem Prod.fst hd)

theorem lookup_append_of_ne {α : Type} (l : List (String × α)) (k : String)
    (v : α) (h : ∀ p ∈ l, p.1 ≠ k) : (l ++ [(k, v)]).lookup k = some v := by
  induction l with
  | nil =>
    simp only [List.nil_append, List.lookup_cons, beq_self_eq_true]
  | cons p tl ih =>
    have hne : (k == p.1) = false := by
      simp only [beq_eq_false_iff_ne, ne_eq]
      exact fun hc => h p (by simp) hc.symm
    cases hp : p with
    | mk pk pv =>
      rw [hp] at hne
      simp only [List.cons_append, List.lookup_cons, hne]
      exact ih fun q hq => h q (by simp [hq])

theorem pfSum_map_num (l : List Rat) : pfSum (l.map PFloat.num) = PFloat.num l.sum := by
  have haux : ∀ (l : List Rat) (a : Rat),
      (l.map PFloat.num).foldl fadd (PFloat.num a) = PFloat.num (a + l.sum) := by
    intro l
    induction l with
    | nil => intro a; simp
    | cons x tl ih =>
      intro a
      simp only [List.map_cons, List.foldl_cons, fadd, List.sum_cons]
      rw [ih]
      ring_nf
  simpa using haux l 0

theorem sum_map_div (l : List Rat) (T : Rat) :
    (l.map fun x => x / T).sum = l.sum / T := by
  induction l with
  | nil => simp
  | cons x tl ih => simp [ih, add_div]

/-- C8 counterexample: a recorded step with positions of value 100 and -100
and zero cash has a zero row total, yet its weight row is (inf, -inf, 0),
not zeros, and that row sums to NaN, not 0: pandas turns a nonzero value
over a zero total into a signed infinity, which fillna(0) does not
replace. -/
theorem weight_zero_total_counterexample :
    (get_analysis (next ⟨[], []⟩ "2020-01-01" [("A", 1, 100), ("B", -1, 100)] 0)).positionWgt
      = [("2020-01-01",
          [("A", PFloat.inf), ("B", PFloat.ninf), ("MNYFUND", PFloat.num 0)])] ∧
    rowSumRat [("A", (100 : Rat)), ("B", -100), ("MNYFUND", 0)] = 0 ∧
    pfSum [PFloat.inf, PFloat.ninf, PFloat.num 0] = PFloat.nan := by
  refine ⟨?_, ?_, ?_⟩ <;> with_unfolding_all rfl

/-- C8 amended: whenever the row total is nonzero, every weight is the
value divided by the row total and the weight row sums to exactly 1; when
every value in the row is zero (hence the row total is zero), every weight
is 0 and the row sums to 0.  A zero row total with nonzero entries instead
produces signed infinities which fillna(0) keeps, so such rows do not sum
to 0 (see the counterexample); the weight table is the row-wise image of
the value table under weightRow. -/
theorem weight_rows_amended (row : List (String × Rat)) :
    (rowSumRat row ≠ 0 →
      weightRow row = (row.map fun p => (p.1, PFloat.num (p.2 / rowSumRat row))) ∧
      pfSum ((weightRow row).map Prod.snd) = PFloat.num 1) ∧
    ((∀ p ∈ row, p.2 = 0) →
      weightRow row = (row.map fun p => (p.1, PFloat.num 0)) ∧
      pfSum ((weightRow row).map Prod.snd) = PFloat.num 0) ∧
    (∀ s : PerfState, (get_analysis s).positionWgt =
      (s.value.map fun r => (r.1, weightRow r.2))) := by
  refine ⟨?_, ?_, fun s => rfl⟩
  · intro hT
    have hw : weightRow row = (row.map fun p => (p.1, PFloat.num (p.2 / rowSumRat row))) := by
      unfold weightRow
      apply List.map_congr_left
      intro p _
      simp [fdiv, fillna0, hT]
    refine ⟨hw, ?_⟩
    rw [hw, List.map_map]
    have hcomp : (Prod.snd ∘ fun p : String × Rat => (p.1, PFloat.num (p.2 / rowSumRat row)))
        = (fun p : String × Rat => PFloat.num (p.2 / rowSumRat row)) := rfl
    rw [hcomp]
    have hmm : (row.map fun p : String × Rat => PFloat.num (p.2 / rowSumRat row))
        = ((row.map fun p : String × Rat => p.2 / rowSumRat row).map PFloat.num) := by
      rw [List.map_map]
      rfl
    rw [hmm, pfSum_map_num]
    have hdiv : (row.map fun p : String × Rat => p.2 / rowSumRat row)
        = ((row.map Prod.snd).map fun x => x / rowSumRat row) := by
      rw [List.map_map]
      rfl
    rw [hdiv, sum_map_div]
    rw [show (row.map Prod.snd).sum = rowSumRat row from rfl]
    rw [div_self hT]
  · intro hz
    have hw : weightRow row = (row.map fun p => (p.1, PFloat.num 0)) := by
      unfold weightRow
      apply List.map_congr_left
      intro p hp
      rw [hz p hp]
      simp [fdiv, fillna0]
    refine ⟨hw, ?_⟩
    rw [hw, List.map_map]
    have hcomp : (Prod.snd ∘ fun p : String × Rat => (p.1, PFloat.num 0))
        = (fun _ : String × Rat => PFloat.num 0) := rfl
    rw [hcomp]
    have : ∀ n : Nat, pfSum (List.replicate n (PFloat.num 0)) = PFloat.num 0 := by
      intro n
      induction n with
      | zero => rfl
      | succ m ih =>
        unfold pfSum at ih ⊢
        simpa [List.replicate_succ, fadd] using ih
    calc pfSum (row.map fun _ => PFloat.num 0)
        = pfSum (List.replicate row.length (PFloat.num 0)) := by
          rw [List.map_const']
      _ = PFloat.num 0 := this row.length

/-- C8 amended witness: a row with values 100 and 100 has total 200,
weights one half each, and weight row sum exactly 1. -/
theorem weight_rows_amended_witness :
    rowSumRat [("A", (100 : Rat)), ("MNYFUND", 100)] ≠ 0 ∧
    weightRow [("A", (100 : Rat)), ("MNYFUND", 100)]
      = [("A", PFloat.num (1/2)), ("MNYFUND", PFloat.num (1/2))] ∧
    pfSum ((weightRow [("A", (100 : Rat)), ("MNYFUND", 100)]).map Prod.snd)
      = PFloat.num 1 := by
  have hT : rowSumRat [("A", (100 : Rat)), ("MNYFUND", 100)] ≠ 0 := by
    with_unfolding_all exact of_decide_eq_true rfl
  have h := (weight_rows_amended [("A", (100 : Rat)), ("MNYFUND", 100)]).1 hT
  exact ⟨hT, by with_unfolding_all rfl, h.2⟩

/-- C9: at every recorded simulation step, the cash amount is stored under
the reserved pseudo-instrument key MNYFUND in both the position-quantity
row (as a raw quantity) and the position-value row, so the row total that
is total_value and every weight denominator includes the cash, and the
daily pnl and daily return series are derived from those cash-inclusive
totals. -/
theorem cash_recorded_under_mnyfund (s : PerfState) (dt : String)
    (datas : List (String × Rat × Rat)) (cash : Rat)
    (hnod : (datas.map Prod.fst).Nodup)
    (hmf : ∀ d ∈ datas, d.1 ≠ "MNYFUND")
    (hdtp : ∀ r ∈ s.position, r.1 ≠ dt)
    (hdtv : ∀ r ∈ s.value, r.1 ≠ dt) :
    (next s dt datas cash).position =
      s.position ++ [(dt, (datas.map fun d => (d.1, d.2.1)) ++ [("MNYFUND", cash)])] ∧
    (next s dt datas cash).value =
      s.value ++ [(dt, (datas.map fun d => (d.1, d.2.1 * d.2.2)) ++ [("MNYFUND", cash)])] ∧
    ((datas.map fun d => (d.1, d.2.1)) ++ [("MNYFUND", cash)]).lookup "MNYFUND"
      = some cash ∧
    ((datas.map fun d => (d.1, d.2.1 * d.2.2)) ++ [("MNYFUND", cash)]).lookup "MNYFUND"
      = some cash ∧
    rowSumRat ((datas.map fun d => (d.1, d.2.1 * d.2.2)) ++ [("MNYFUND", cash)]) =
      (datas.map fun d => d.2.1 * d.2.2).sum + cash ∧
    (get_analysis (next s dt datas cash)).totals =
      (s.value.map fun r => (r.1, rowSumRat r.2)) ++
        [(dt, rowSumRat ((datas.map fun d => (d.1, d.2.1 * d.2.2)) ++ [("MNYFUND", cash)]))] ∧
    (get_analysis (next s dt datas cash)).dailyPnl =
      dailyPnlList ((get_analysis (next s dt datas cash)).totals.map Prod.snd) ∧
    (get_analysis (next s dt datas cash)).dailyReturn =
      dailyReturnList ((get_analysis (next s dt datas cash)).totals.map Prod.snd) := by
  have hq : buildRow datas (fun d => d.2.1) = datas.map fun d => (d.1, d.2.1) := by
    have h := buildRow_eq_map (fun d => d.2.1) datas []
      (by intro d _ p hp; exact absurd hp (List.not_mem_nil p)) hnod
    simpa [buildRow] using h
  have hv : buildRow datas (fun d => d.2.1 * d.2.2) =
      datas.map fun d => (d.1, d.2.1 * d.2.2) := by
    have h := buildRow_eq_map (fun d => d.2.1 * d.2.2) datas []
      (by intro d _ p hp; exact absurd hp (List.not_mem_nil p)) hnod
    simpa [buildRow] using h
  have hkeysq : ∀ p ∈ datas.map fun d : String × Rat × Rat => (d.1, d.2.1),
      p.1 ≠ "MNYFUND" := by
    intro p hp
    obtain ⟨d, hd, rfl⟩ := List.mem_map.mp hp
    exact hmf d hd
  have hkeysv : ∀ p ∈ datas.map fun d : String × Rat × Rat => (d.1, d.2.1 * d.2.2),
      p.1 ≠ "MNYFUND" := by
    intro p hp
    obtain ⟨d, hd, rfl⟩ := List.mem_map.mp hp
    exact hmf d hd
  have hposRow : dictUpdate (buildRow datas fun d => d.2.1) "MNYFUND" cash =
      (datas.map fun d => (d.1, d.2.1)) ++ [("MNYFUND", cash)] := by
    rw [hq]
    exact dictUpdate_of_not_mem _ _ _ hkeysq
  have hvalRow : dictUpdate (buildRow datas fun d => d.2.1 * d.2.2) "MNYFUND" cash =
      (datas.map fun d => (d.1, d.2.1 * d.2.2)) ++ [("MNYFUND", cash)] := by
    rw [hv]
    exact dictUpdate_of_not_mem _ _ _ hkeysv
  have h1 : (next s dt datas cash).position =
      s.position ++ [(dt, (datas.map fun d => (d.1, d.2.1)) ++ [("MNYFUND", cash)])] := by
    show dictUpdate s.position dt (dictUpdate (buildRow datas fun d => d.2.1) "MNYFUND" cash)
      = _
    rw [hposRow]
    exact dictUpdate_of_not_mem _ _ _ hdtp
  have h2 : (next s dt datas cash).value =
      s.value ++ [(dt, (datas.map fun d => (d.1, d.2.1 * d.2.2)) ++ [("MNYFUND", cash)])] := by
    show dictUpdate s.value dt
      (dictUpdate (buildRow datas fun d => d.2.1 * d.2.2) "MNYFUND" cash) = _
    rw [hvalRow]
    exact dictUpdate_of_not_mem _ _ _ hdtv
  refine ⟨h1, h2, lookup_append_of_ne _ _ _ hkeysq, lookup_append_of_ne _ _ _ hkeysv,
    ?_, ?_, rfl, rfl⟩
  · simp [rowSumRat, Function.comp_def]
  · show (next s dt datas cash).value.map (fun r => (r.1, rowSumRat r.2)) = _
    rw [h2]
    simp

/-- C9 witness: one recorded step with one instrument of size 2 and close
50 plus cash 30; MNYFUND carries the raw cash in both rows and total_value
is 130 = 100 + 30. -/
theorem cash_recorded_under_mnyfund_witness :
    ((([("A", (2 : Rat), (50 : Rat))]).map Prod.fst).Nodup) ∧
    (∀ d ∈ [("A", (2 : Rat), (50 : Rat))], d.1 ≠ "MNYFUND") ∧
    (next ⟨[], []⟩ "2020-01-01" [("A", 2, 50)] 30).value =
      [] ++ [("2020-01-01",
        (([("A", (2 : Rat), (50 : Rat))]).map fun d => (d.1, d.2.1 * d.2.2))
          ++ [("MNYFUND", 30)])] ∧
    (next ⟨[], []⟩ "2020-01-01" [("A", 2, 50)] 30).value =
      [("2020-01-01", [("A", 100), ("MNYFUND", 30)])] ∧
    ([("A", (100 : Rat)), ("MNYFUND", 30)]).lookup "MNYFUND" = some 30 ∧
    (get_analysis (next ⟨[], []⟩ "2020-01-01" [("A", 2, 50)] 30)).totals =
      [("2020-01-01", 130)] := by
  have h := cash_recorded_under_mnyfund ⟨[], []⟩ "2020-01-01" [("A", 2, 50)] 30
    (by simp) (by simp) (by simp) (by simp)
  refine ⟨by simp, by simp, h.2.1, ?_, ?_, ?_⟩ <;> with_unfolding_all rfl

end PerformanceAnalyzer

